import Mathlib

/-!
Verification development for the pi-diff-ui repository (TypeScript).

Strings are modelled as `List Char` (every character the code manipulates is
a single UTF-16 code unit, so this is faithful).  JavaScript numbers are
modelled as `Int` (all arithmetic performed by the code is integer
arithmetic on small values).  The external `diff` library
(`Diff.structuredPatch`) is modelled as an abstract function parameter.
-/

namespace PiDiffUi

/-- Strings as lists of characters. -/
abbrev Str := List Char

/-- The ASCII escape character, written `\x1b` in the TypeScript source. -/
def escChar : Char := Char.ofNat 27

/-- Render an integer the way JavaScript `Number.prototype.toString` does
for integral values. -/
def intToStr (i : Int) : Str := (toString i).data

/-- JavaScript `String.prototype.padStart(width, ' ')`. -/
def padStart (s : Str) (width : Nat) : Str :=
  List.replicate (width - s.length) ' ' ++ s

/-- JavaScript `Array.prototype.slice(s, e)` (both indices given). -/
def jsSlice (l : List α) (s e : Int) : List α :=
  let n : Int := l.length
  let s' : Int := if s < 0 then max (n + s) 0 else min s n
  let e' : Int := if e < 0 then max (n + e) 0 else min e n
  (l.take e'.toNat).drop s'.toNat

/-- JavaScript `Array.prototype.map` with the element index (second callback
argument), starting at index `i`. -/
def mapWithIndex (f : Nat → α → β) : Nat → List α → List β
  | _, [] => []
  | i, a :: as => f i a :: mapWithIndex f (i + 1) as

/-! ## diff-engine.ts -/

/-- Line type of a diff line record (`'added' | 'removed' | 'context'`). -/
inductive LineType where
  | added
  | removed
  | context
deriving DecidableEq

/-- Source `DiffLine` (diff-engine.ts): one diff-visible line. -/
structure DiffLine where
  type : LineType
  content : Str
  oldLineNumber : Option Int := none
  newLineNumber : Option Int := none
deriving DecidableEq

/-- Source `FileDiff` (diff-engine.ts). -/
structure FileDiff where
  filePath : Str
  isNewFile : Bool
  hunks : List DiffLine
  additions : Nat
  deletions : Nat
deriving DecidableEq

/-- One hunk as returned by the external diff library
(`Diff.structuredPatch(...).hunks`): declared start lines plus the raw
prefixed lines. -/
structure PatchHunk where
  oldStart : Int
  newStart : Int
  lines : List Str

/-- The external diff computation, abstracted: given the original and the
current content it returns the hunks of `Diff.structuredPatch`. -/
abbrev StructuredPatchFn := Str → Str → List PatchHunk

/-- The inner line loop of `computeDiff`: walks one hunk's raw lines,
classifying by first character and assigning line numbers from the two
running counters; returns the produced records together with the numbers of
added and removed lines. -/
def processLines : List Str → Int → Int → List DiffLine × Nat × Nat
  | [], _, _ => ([], 0, 0)
  | line :: rest, o, n =>
    match line with
    | '+' :: cs =>
      let (h, a, d) := processLines rest o (n + 1)
      ({ type := .added, content := cs, newLineNumber := some n } :: h, a + 1, d)
    | '-' :: cs =>
      let (h, a, d) := processLines rest (o + 1) n
      ({ type := .removed, content := cs, oldLineNumber := some o } :: h, a, d + 1)
    | other =>
      let (h, a, d) := processLines rest (o + 1) (n + 1)
      ({ type := .context, content := other.drop 1,
         oldLineNumber := some o, newLineNumber := some n } :: h, a, d)

/-- The outer hunk loop of `computeDiff`. -/
def processHunks : List PatchHunk → List DiffLine × Nat × Nat
  | [] => ([], 0, 0)
  | hk :: rest =>
    let (h, a, d) := processLines hk.lines hk.oldStart hk.newStart
    let (h', a', d') := processHunks rest
    (h ++ h', a + a', d + d')

/-- Source `computeDiff` (diff-engine.ts), with the external
`Diff.structuredPatch` call abstracted as the parameter `sp`. -/
def computeDiff (sp : StructuredPatchFn) (filePath original current : Str) :
    FileDiff :=
  let isNewFile := decide (original = []) && decide (¬ current = [])
  if original = [] ∧ current = [] then
    { filePath := filePath, isNewFile := false, hunks := [],
      additions := 0, deletions := 0 }
  else
    let patches := sp original current
    let processed := processHunks patches
    { filePath := filePath, isNewFile := isNewFile, hunks := processed.1,
      additions := processed.2.1, deletions := processed.2.2 }

/-! ## inline-view.ts -/

/-- Source `HighlightFn` (inline-view.ts): code and file path to styled code. -/
abbrev HighlightFn := Str → Str → Str

/-- Source `RenderedLine` (inline-view.ts): the ANSI-styled content together
with the raw (escape-free) content. -/
structure RenderedLine where
  content : Str
  rawContent : Str
deriving DecidableEq

/-- The ANSI reset sequence `\x1b[0m`. -/
def resetSeq : Str := [escChar, '[', '0', 'm']

/-- The green foreground sequence `\x1b[32m` used for added lines. -/
def greenSeq : Str := [escChar, '[', '3', '2', 'm']

/-- The red foreground sequence `\x1b[31m` used for removed lines. -/
def redSeq : Str := [escChar, '[', '3', '1', 'm']

/-- The dim sequence `\x1b[2m` used for context lines and separators. -/
def dimSeq : Str := [escChar, '[', '2', 'm']

/-- The background-set sequence `\x1b[48;5;236m` used for cursor/visual rows. -/
def bgOnSeq : Str := [escChar, '[', '4', '8', ';', '5', ';', '2', '3', '6', 'm']

/-- The background-reset sequence `\x1b[49m`. -/
def bgOffSeq : Str := [escChar, '[', '4', '9', 'm']

/-- The anchor line number of a record:
`hunk.newLineNumber ?? hunk.oldLineNumber`. -/
def anchorLineNumber (h : DiffLine) : Option Int :=
  match h.newLineNumber with
  | some n => some n
  | none => h.oldLineNumber

/-- Source `getMaxLineNumber`: greatest anchor line number
(`newLineNumber ?? oldLineNumber ?? 0`) over all hunks, starting from 0. -/
def getMaxLineNumber (hunks : List DiffLine) : Int :=
  hunks.foldl (fun m h => max m ((anchorLineNumber h).getD 0)) 0

/-- Source `renderHunk`: format one record as
`color ++ padded number ++ ' ' ++ marker ++ ' ' ++ content ++ reset`;
only context lines are passed through the highlight function. -/
def renderHunk (hl : Option HighlightFn) (filePath : Str) (hunk : DiffLine)
    (lineNumberWidth : Nat) : RenderedLine :=
  let lineNumber := (anchorLineNumber hunk).getD 0
  let lineNumStr := padStart (intToStr lineNumber) lineNumberWidth
  let (marker, color, content) :=
    match hunk.type with
    | .added => ('+', greenSeq, hunk.content)
    | .removed => ('-', redSeq, hunk.content)
    | .context => (' ', dimSeq,
        match hl with
        | some f => f hunk.content filePath
        | none => hunk.content)
  { content := color ++ lineNumStr ++ [' ', marker, ' '] ++ content ++ resetSeq,
    rawContent := lineNumStr ++ [' ', marker, ' '] ++ hunk.content }

/-- Source `createSeparatorLine`: a dim `···` row. -/
def separatorLine : RenderedLine :=
  { content := dimSeq ++ ['·', '·', '·'] ++ resetSeq,
    rawContent := ['·', '·', '·'] }

/-- The loop body of `buildRenderedLines`: walks the records carrying the
last defined anchor line number and the record index, producing the rendered
rows together with the parallel `lineToHunkIndex` list (`-1` = separator). -/
def buildLines (hl : Option HighlightFn) (filePath : Str) (w : Nat) :
    List DiffLine → Option Int → Nat → List RenderedLine × List Int
  | [], _, _ => ([], [])
  | hunk :: rest, prev, i =>
    let cur := anchorLineNumber hunk
    let prev' := match cur with
      | some c => some c
      | none => prev
    let rs := buildLines hl filePath w rest prev' (i + 1)
    let sep : Bool := match prev, cur with
      | some p, some c => decide (c > p + 1)
      | _, _ => false
    if sep then
      (separatorLine :: renderHunk hl filePath hunk w :: rs.1,
       (-1 : Int) :: (i : Int) :: rs.2)
    else
      (renderHunk hl filePath hunk w :: rs.1, (i : Int) :: rs.2)

/-- Source `buildRenderedLines`: empty hunk list gives no rows; otherwise
the records are walked with separator insertion, using the width of the
largest line number for alignment. -/
def buildRenderedLines (hl : Option HighlightFn) (diff : FileDiff) :
    List RenderedLine × List Int :=
  if diff.hunks = [] then ([], [])
  else
    let w := (intToStr (getMaxLineNumber diff.hunks)).length
    buildLines hl diff.filePath w diff.hunks none 0

/-- The character loop of `truncateToWidth`: state is (remaining input,
`inEscape`, accumulated `escapeSequence`, `visibleLength`); returns the
emitted `result`.  An escape sequence is emitted when its terminating `m`
arrives; the loop breaks at the first regular character once
`visibleLength ≥ width`; a partial escape at end of input is dropped. -/
def truncLoop (width : Int) : Str → Bool → Str → Int → Str
  | [], _, _, _ => []
  | c :: rest, inEscape, escSeq, visibleLength =>
    if c = escChar then truncLoop width rest true [c] visibleLength
    else if inEscape then
      if c = 'm' then (escSeq ++ [c]) ++ truncLoop width rest false [] visibleLength
      else truncLoop width rest true (escSeq ++ [c]) visibleLength
    else if visibleLength ≥ width then []
    else c :: truncLoop width rest false escSeq (visibleLength + 1)

/-- Source `truncateToWidth` (inline-view.ts): run the character loop, then
append a closing reset when the result contains `\x1b[` and does not already
end with `\x1b[0m`. -/
def truncateToWidth (line : Str) (width : Int) : Str :=
  let result := truncLoop width line false [] 0
  if [escChar, '['] <:+: result ∧ ¬ resetSeq <:+ result then result ++ resetSeq
  else result

/-- Scanner used to state properties of truncated rows: the `inEscape`
state after reading the string with the same escape-recognition rule as
`truncateToWidth`. -/
def scanState : Str → Bool → Bool
  | [], inEscape => inEscape
  | c :: rest, inEscape =>
    if c = escChar then scanState rest true
    else if inEscape then
      if c = 'm' then scanState rest false else scanState rest true
    else scanState rest false

/-- Number of visible characters of a string: characters read outside a
recognized escape sequence, with the same recognition rule as
`truncateToWidth`. -/
def visibleCount : Str → Bool → Nat
  | [], _ => 0
  | c :: rest, inEscape =>
    if c = escChar then visibleCount rest true
    else if inEscape then
      if c = 'm' then visibleCount rest false else visibleCount rest true
    else visibleCount rest false + 1

/-- Source class `InlineDiffView` (inline-view.ts): its mutable fields. -/
structure InlineDiffView where
  diff : FileDiff
  highlightFn : Option HighlightFn
  renderedLines : List RenderedLine
  scrollOffset : Int
  cursorLine : Int
  lineToHunkIndex : List Int
  visualMode : Bool
  visualAnchor : Int

namespace InlineDiffView

/-- Source constructor: store the diff and highlight function, initialize
all counters to zero and build the rendered lines. -/
def make (diff : FileDiff) (hl : Option HighlightFn) : InlineDiffView :=
  let built := buildRenderedLines hl diff
  { diff := diff, highlightFn := hl, renderedLines := built.1,
    lineToHunkIndex := built.2, scrollOffset := 0, cursorLine := 0,
    visualMode := false, visualAnchor := 0 }

/-- Source `setDiff`: replace the diff, reset scroll, cursor and visual
mode, and rebuild the rendered lines. -/
def setDiff (v : InlineDiffView) (diff : FileDiff) : InlineDiffView :=
  let built := buildRenderedLines v.highlightFn diff
  { v with
    diff := diff
    scrollOffset := 0
    cursorLine := 0
    visualMode := false
    renderedLines := built.1
    lineToHunkIndex := built.2 }

/-- Source `setCursor`: clamp into `[0, max 0 (rows.length - 1)]`. -/
def setCursor (v : InlineDiffView) (line : Int) : InlineDiffView :=
  let maxLine : Int := max 0 ((v.renderedLines.length : Int) - 1)
  { v with cursorLine := max 0 (min line maxLine) }

/-- Source `moveCursor`: `setCursor(cursorLine + delta)`. -/
def moveCursor (v : InlineDiffView) (delta : Int) : InlineDiffView :=
  v.setCursor (v.cursorLine + delta)

/-- Source `scrollUp`: lower the scroll offset (clamped at 0) and move the
cursor by the same amount. -/
def scrollUp (v : InlineDiffView) (lines : Int) : InlineDiffView :=
  ({ v with scrollOffset := max 0 (v.scrollOffset - lines) }).moveCursor (-lines)

/-- Source `scrollDown`: raise the scroll offset (clamped above by
`max 0 rows.length`) and move the cursor by the same amount. -/
def scrollDown (v : InlineDiffView) (lines : Int) : InlineDiffView :=
  let newOffset := min (max 0 (v.renderedLines.length : Int)) (v.scrollOffset + lines)
  ({ v with scrollOffset := newOffset }).moveCursor lines

/-- Source `scrollToTop`. -/
def scrollToTop (v : InlineDiffView) : InlineDiffView :=
  { v with scrollOffset := 0, cursorLine := 0 }

/-- Source `scrollToBottom`: scroll offset to `rows.length` (render will
clamp), cursor to the last row. -/
def scrollToBottom (v : InlineDiffView) : InlineDiffView :=
  { v with
    scrollOffset := max 0 (v.renderedLines.length : Int)
    cursorLine := max 0 ((v.renderedLines.length : Int) - 1) }

/-- Source `enterVisualMode`: set the flag and anchor at the cursor. -/
def enterVisualMode (v : InlineDiffView) : InlineDiffView :=
  { v with visualMode := true, visualAnchor := v.cursorLine }

/-- Source `exitVisualMode`: clear the flag only. -/
def exitVisualMode (v : InlineDiffView) : InlineDiffView :=
  { v with visualMode := false }

/-- Source `getVisualRange`: inclusive `[min(anchor, cursor),
max(anchor, cursor)]`. -/
def getVisualRange (v : InlineDiffView) : Int × Int :=
  (min v.visualAnchor v.cursorLine, max v.visualAnchor v.cursorLine)

/-- Source `isSeparatorLine`: in-range index mapping to the `-1` sentinel. -/
def isSeparatorLine (v : InlineDiffView) (index : Int) : Bool :=
  if index < 0 ∨ index ≥ (v.lineToHunkIndex.length : Int) then false
  else decide (v.lineToHunkIndex.getD index.toNat 0 = -1)

/-- Source `render`: auto-scroll correction, clamp of the scroll offset,
slice of the visible window, per-row cursor/visual background wrap
(inserting a background reset before a trailing reset sequence), and
ANSI-aware truncation of every row.  Returns the updated state (the scroll
offset is mutated) together with the rows. -/
def render (v : InlineDiffView) (width : Int) (visibleHeight : Int) :
    InlineDiffView × List Str :=
  let off1 := if v.cursorLine ≥ v.scrollOffset + visibleHeight
    then v.cursorLine - visibleHeight + 1 else v.scrollOffset
  let off2 := if v.cursorLine < off1 then v.cursorLine else off1
  let maxOffset : Int := max 0 ((v.renderedLines.length : Int) - visibleHeight)
  let offset := min off2 maxOffset
  let endIndex := min (offset + visibleHeight) (v.renderedLines.length : Int)
  let visibleLines := jsSlice v.renderedLines offset endIndex
  let rows := mapWithIndex (fun index line =>
    let lineIndex := offset + (index : Int)
    let inVisualRange : Bool :=
      if v.visualMode then
        decide (v.getVisualRange.1 ≤ lineIndex ∧ lineIndex ≤ v.getVisualRange.2)
      else false
    let content :=
      if inVisualRange || decide (lineIndex = v.cursorLine) then
        bgOnSeq ++ (if resetSeq <:+ line.content
          then line.content.take (line.content.length - resetSeq.length) ++
            bgOffSeq ++ resetSeq
          else line.content)
      else line.content
    truncateToWidth content width) 0 visibleLines
  ({ v with scrollOffset := offset }, rows)

end InlineDiffView

/-! ## diff-state.ts -/

/-- Source `FileSnapshot` (diff-state.ts): the per-file pair of contents. -/
structure FileSnapshot where
  originalContent : Str
  currentContent : Str
deriving DecidableEq

/-- Source class `DiffState` (diff-state.ts): the private
`snapshots: Map<string, FileSnapshot>`.  A JavaScript `Map` iterates in
insertion order and has unique keys, so it is modelled as an
insertion-ordered association list whose keys the operations below keep
unique. -/
structure DiffState where
  snapshots : List (Str × FileSnapshot)

/-- The fresh ledger (`new DiffState()`). -/
def DiffState.empty : DiffState := { snapshots := [] }

/-- Source `updateFile`: set `currentContent` of the tracked snapshot
(keeping the baseline); untracked paths are silently ignored.  Updating the
entry in place keeps the map's insertion order. -/
def DiffState.updateFile (s : DiffState) (p current : Str) : DiffState :=
  { snapshots := s.snapshots.map (fun e =>
      if e.1 = p then (e.1, { e.2 with currentContent := current }) else e) }

/-- Source `trackFile`: an already-tracked path behaves like `updateFile`
(the baseline is preserved); a new path appends a snapshot with the given
original and current contents (`Map.set` on a new key appends). -/
def DiffState.trackFile (s : DiffState) (p original current : Str) :
    DiffState :=
  if (s.snapshots.find? (fun e => decide (e.1 = p))).isSome then
    s.updateFile p current
  else
    { snapshots := s.snapshots ++
        [(p, { originalContent := original, currentContent := current })] }

/-- Source `getFileDiff`: `undefined` for an untracked path, otherwise
`computeDiff` on the snapshot pair (recomputed on every call); the external
diff library stays the abstract parameter `sp`. -/
def DiffState.getFileDiff (sp : StructuredPatchFn) (s : DiffState) (p : Str) :
    Option FileDiff :=
  match s.snapshots.find? (fun e => decide (e.1 = p)) with
  | none => none
  | some e => some (computeDiff sp p e.2.originalContent e.2.currentContent)

/-- Source `getChangedFiles`: all tracked paths whose original content
differs from the current content, in the map's insertion order. -/
def DiffState.getChangedFiles (s : DiffState) : List Str :=
  (s.snapshots.filter (fun e =>
    decide (¬ e.2.originalContent = e.2.currentContent))).map (·.1)

/-- Source `dismissFile`: reset the snapshot's baseline to its current
content; untracked paths are silently ignored. -/
def DiffState.dismissFile (s : DiffState) (p : Str) : DiffState :=
  { snapshots := s.snapshots.map (fun e =>
      if e.1 = p then (e.1, { e.2 with originalContent := e.2.currentContent })
      else e) }

/-- Source `isTracked`. -/
def DiffState.isTracked (s : DiffState) (p : Str) : Bool :=
  (s.snapshots.find? (fun e => decide (e.1 = p))).isSome

/-- Source `pendingCount` getter. -/
def DiffState.pendingCount (s : DiffState) : Nat :=
  s.getChangedFiles.length

/-! ## modal.ts -/

/-- Source `ModalFileEntry` (modal.ts). -/
structure ModalFileEntry where
  path : Str
  additions : Nat
  deletions : Nat
  isNewFile : Bool
deriving DecidableEq

/-- Source class `DiffReviewModal` (modal.ts): its fields, together with the
wrapped `DiffState`. -/
structure DiffReviewModal where
  diffState : DiffState
  selectedIndex : Int
  fileList : List ModalFileEntry
  filePickerOpen : Bool
  filePickerIndex : Int

namespace DiffReviewModal

/-- Source `refresh`: rebuild the file list from the changed paths and their
diffs (`diff?.additions ?? 0` etc.), then clamp the selection index: 0 when
the list is empty, last index when it overflows. -/
def refresh (sp : StructuredPatchFn) (m : DiffReviewModal) : DiffReviewModal :=
  let fileList := m.diffState.getChangedFiles.map (fun p =>
    match DiffState.getFileDiff sp m.diffState p with
    | some d =>
      { path := p, additions := d.additions, deletions := d.deletions,
        isNewFile := d.isNewFile }
    | none => { path := p, additions := 0, deletions := 0, isNewFile := false })
  let selectedIndex : Int :=
    if fileList.length = 0 then 0
    else if m.selectedIndex ≥ (fileList.length : Int) then (fileList.length : Int) - 1
    else m.selectedIndex
  { m with fileList := fileList, selectedIndex := selectedIndex }

/-- Source constructor: wrap the ledger and run `refresh`. -/
def make (sp : StructuredPatchFn) (ds : DiffState) : DiffReviewModal :=
  refresh sp
    { diffState := ds, selectedIndex := 0, fileList := [],
      filePickerOpen := false, filePickerIndex := 0 }

/-- Source `selectedFile` getter: `undefined` when the list is empty,
otherwise `fileList[selectedIndex]?.path` (an out-of-range or negative index
yields `undefined`). -/
def selectedFile (m : DiffReviewModal) : Option Str :=
  if m.fileList.length = 0 then none
  else if m.selectedIndex < 0 then none
  else (m.fileList.get? m.selectedIndex.toNat).map (·.path)

/-- Source `selectNext`: circular increment; no-op when the list is empty.
JavaScript `%` is truncating remainder, i.e. `Int.tmod`. -/
def selectNext (m : DiffReviewModal) : DiffReviewModal :=
  if m.fileList.length = 0 then m
  else { m with selectedIndex := (m.selectedIndex + 1).tmod (m.fileList.length : Int) }

/-- Source `selectPrevious`: circular decrement; no-op when empty. -/
def selectPrevious (m : DiffReviewModal) : DiffReviewModal :=
  if m.fileList.length = 0 then m
  else if m.selectedIndex = 0 then
    { m with selectedIndex := (m.fileList.length : Int) - 1 }
  else { m with selectedIndex := m.selectedIndex - 1 }

/-- Source `selectIndex`: clamp into the valid range, 0 when empty. -/
def selectIndex (m : DiffReviewModal) (index : Int) : DiffReviewModal :=
  if m.fileList.length = 0 then { m with selectedIndex := 0 }
  else { m with selectedIndex := max 0 (min index ((m.fileList.length : Int) - 1)) }

/-- Source `dismissSelected`: false when nothing is selected; otherwise
dismiss the selected path in the ledger, refresh, and clamp the selection
index if it now overflows a non-empty list.  The picker index is NOT
re-clamped. -/
def dismissSelected (sp : StructuredPatchFn) (m : DiffReviewModal) :
    Bool × DiffReviewModal :=
  match m.selectedFile with
  | none => (false, m)
  | some p =>
    let m1 := refresh sp { m with diffState := m.diffState.dismissFile p }
    let m2 :=
      if m1.selectedIndex ≥ (m1.fileList.length : Int) ∧ 0 < m1.fileList.length then
        { m1 with selectedIndex := (m1.fileList.length : Int) - 1 }
      else m1
    (true, m2)

/-- Source `openFilePicker`: open the picker at the current selection. -/
def openFilePicker (m : DiffReviewModal) : DiffReviewModal :=
  { m with filePickerOpen := true, filePickerIndex := m.selectedIndex }

/-- Source `closeFilePicker`: clear the flag only. -/
def closeFilePicker (m : DiffReviewModal) : DiffReviewModal :=
  { m with filePickerOpen := false }

/-- Source `filePickerNext`: circular increment of the picker index; no-op
when the list is empty. -/
def filePickerNext (m : DiffReviewModal) : DiffReviewModal :=
  if m.fileList.length = 0 then m
  else { m with filePickerIndex := (m.filePickerIndex + 1).tmod (m.fileList.length : Int) }

/-- Source `filePickerPrevious`: circular decrement; no-op when empty. -/
def filePickerPrevious (m : DiffReviewModal) : DiffReviewModal :=
  if m.fileList.length = 0 then m
  else if m.filePickerIndex = 0 then
    { m with filePickerIndex := (m.fileList.length : Int) - 1 }
  else { m with filePickerIndex := m.filePickerIndex - 1 }

/-- Source `confirmFilePickerSelection`: adopt the picker index as the
selection and close the picker.  The adopted value is NOT re-clamped. -/
def confirmFilePickerSelection (m : DiffReviewModal) : DiffReviewModal :=
  { m with selectedIndex := m.filePickerIndex, filePickerOpen := false }

end DiffReviewModal

/-! ## overlay.ts -/

/-- Host capabilities consumed by `createOverlayHandler` (`OverlayTui`,
`OverlayTheme`, `OverlayKeyUtils.truncateToWidth`) plus the configured
title, all abstract. -/
structure OverlayEnv where
  tuiHeight : Option Int
  fg : Str → Str → Str
  bold : Str → Str
  truncUtil : Str → Int → Str
  title : Str

/-- Mutable state captured by the overlay handler closure: the modal and the
current `DiffViewController` (a pure delegating wrapper around
`InlineDiffView`, diff-view-controller.ts, so modelled as the inline view
itself), `null` when no diff is selected. -/
structure OverlayState where
  modal : DiffReviewModal
  viewController : Option InlineDiffView

/-- Character class `[0-9;]` of the overlay's `stripAnsi` regular
expression. -/
def isParamChar (c : Char) : Bool := c = ';' ∨ ('0' ≤ c ∧ c ≤ '9')

/-- Consume `[0-9;]*m`: the remainder after a complete match, `none` when
the pattern cannot complete. -/
def dropParams : Str → Option Str
  | [] => none
  | c :: rest =>
    if c = 'm' then some rest
    else if isParamChar c then dropParams rest
    else none

/-- Fuel-indexed scanner for the overlay's
`s.replace(/\x1b\[[0-9;]*m/g, "")`: at each position, drop a complete
escape-sequence match or emit one character.  The fuel (instantiated with
the string length, which bounds the number of steps) only makes the
recursion structural. -/
def stripAnsiFuel : Nat → Str → Str
  | 0, _ => []
  | _ + 1, [] => []
  | fuel + 1, c :: rest =>
    if c = escChar then
      match rest with
      | '[' :: rest2 =>
        match dropParams rest2 with
        | some rest3 => stripAnsiFuel fuel rest3
        | none => c :: stripAnsiFuel fuel rest
      | _ => c :: stripAnsiFuel fuel rest
    else c :: stripAnsiFuel fuel rest

/-- The overlay's `stripAnsi` helper. -/
def stripAnsi (s : Str) : Str := stripAnsiFuel s.length s

/-- The overlay's derived block height:
`Math.max(20, Math.floor(termHeight * 0.75))` with `termHeight` defaulting
to 40 (`tui.height ?? 40`).  For integral heights the float product
`termHeight * 0.75` is exact, so the floor is `fdiv (3 * h) 4`. -/
def overlayTargetHeight (env : OverlayEnv) : Int :=
  max 20 (Int.fdiv (3 * env.tuiHeight.getD 40) 4)

/-- The overlay's `padLine` helper: truncate with the host utility, measure
the visible length after stripping ANSI sequences, and pad to the inner
width between the two side borders. -/
def overlayPadLine (env : OverlayEnv) (innerWidth : Int) (line : Str) : Str :=
  let border := env.fg ("border".data) ['│']
  let truncated := env.truncUtil line innerWidth
  let visible : Int := (stripAnsi truncated).length
  let rightPad := max 0 (innerWidth - visible)
  border ++ [' '] ++ truncated ++ List.replicate rightPad.toNat ' ' ++ [' '] ++ border

/-- The overlay's `emptyLine` helper (JavaScript `' '.repeat(width - 2)`
requires `width ≥ 2`; negative counts are modelled as 0). -/
def overlayEmptyLine (env : OverlayEnv) (width : Int) : Str :=
  let border := env.fg ("border".data) ['│']
  border ++ List.replicate (width - 2).toNat ' ' ++ border

/-- One file entry line of the picker branch of the overlay render. -/
def overlayPickerItem (env : OverlayEnv) (pickerIndex : Int) (i : Nat)
    (file : ModalFileEntry) : Str :=
  let selected := decide ((i : Int) = pickerIndex)
  let pre := if selected then ['▸', ' '] else [' ', ' ']
  let name := if selected then env.fg ("accent".data) file.path
    else env.fg ("text".data) file.path
  let stats := env.fg ("muted".data)
    ([' ', '+'] ++ (Nat.repr file.additions).data ++ ['/', '-'] ++
      (Nat.repr file.deletions).data)
  let tag := if file.isNewFile then env.fg ("success".data) (" [new]".data) else []
  pre ++ name ++ stats ++ tag

/-- The rounded scroll percentage of the overlay's scroll indicator:
`Math.round(((scrollOffset + availableHeight) / totalLines) * 100)`,
computed as exact rational rounding (half away from zero on the
non-negative values that occur here). -/
def overlayPct (scrollOffset availableHeight totalLines : Int) : Int :=
  Int.fdiv (200 * (scrollOffset + availableHeight) + totalLines) (2 * totalLines)

/-- The content-line builder of the overlay `render` (everything pushed to
`content`), returning the lines together with the updated view controller
(its render mutates the scroll offset).  In the diff-view branch the source
reads `fileList[modal.selectedIndex]` and then `currentFile.path`
(overlay.ts lines 157 and 163): for a negative or out-of-range
`selectedIndex` the access yields `undefined` and reading `.path` throws a
TypeError; that error outcome is `none` here. -/
def overlayContent (env : OverlayEnv) (st : OverlayState) (width : Int) :
    Option (List Str × Option InlineDiffView) :=
  let targetHeight := overlayTargetHeight env
  let innerWidth := width - 4
  let fileList := st.modal.fileList
  if fileList.length = 0 then
    some ([env.fg ("muted".data) ("No files to review".data), [],
      env.fg ("dim".data) ("Press Escape to close".data)], st.viewController)
  else if st.modal.filePickerOpen then
    some ([env.fg ("accent".data) (env.bold ("File Picker".data)), []] ++
      mapWithIndex (overlayPickerItem env st.modal.filePickerIndex) 0 fileList ++
      [[], env.fg ("dim".data) ("↑↓ navigate  Enter select  Esc cancel".data)],
     st.viewController)
  else
    match (if st.modal.selectedIndex < 0 then none
           else fileList.get? st.modal.selectedIndex.toNat) with
    | none => none
    | some currentFile =>
      let fileNumStr := ['['] ++ intToStr (st.modal.selectedIndex + 1) ++ ['/'] ++
        (Nat.repr fileList.length).data ++ [']']
      let statsRaw := [' ', '+'] ++ (Nat.repr currentFile.additions).data ++
        ['/', '-'] ++ (Nat.repr currentFile.deletions).data
      let rightIndicator := match st.viewController with
        | some vc => if vc.visualMode then ("VISUAL LINE".data) else []
        | none => []
      let leftSide := fileNumStr ++ [' '] ++ env.fg ("accent".data) currentFile.path ++
        env.fg ("muted".data) statsRaw
      let leftSideStripped := fileNumStr ++ [' '] ++ currentFile.path ++ statsRaw
      let hPadding := max 1 (innerWidth - (leftSideStripped.length : Int) -
        (rightIndicator.length : Int))
      let headerRow := leftSide ++ List.replicate hPadding.toNat ' ' ++
        env.fg ("accent".data) rightIndicator
      let ruleRow := env.fg ("border".data) (List.replicate innerWidth.toNat '─')
      match st.viewController with
      | none => some ([headerRow, ruleRow], none)
      | some vc =>
        let availableHeight := max 5 (targetHeight - 8)
        let rendered := vc.render innerWidth availableHeight
        let vc' := rendered.1
        let indicator :=
          if (vc'.renderedLines.length : Int) > availableHeight then
            [env.fg ("dim".data)
              ("── ".data ++
                intToStr (min (overlayPct vc'.scrollOffset availableHeight
                  (vc'.renderedLines.length : Int)) 100) ++ "% ──".data)]
          else []
        some ([headerRow, ruleRow] ++ rendered.2 ++ indicator, some vc')

/-- The overlay's top border row: `╭─`, the bolded title, and a dash run
closed by `╮`. -/
def overlayTopBorder (env : OverlayEnv) (width : Int) : Str :=
  let titleText := [' '] ++ env.title ++ [' ']
  env.fg ("border".data) ['╭', '─'] ++
    env.fg ("accent".data) (env.bold titleText) ++
    env.fg ("border".data)
      (List.replicate (max 0 (width - 2 - (titleText.length : Int) - 1)).toNat '─' ++
        ['╮'])

/-- The overlay's bottom border row. -/
def overlayBottomBorder (env : OverlayEnv) (width : Int) : Str :=
  env.fg ("border".data) (['╰'] ++ List.replicate (width - 2).toNat '─' ++ ['╯'])

/-- The overlay's help line. -/
def overlayHelpLine (env : OverlayEnv) : Str :=
  env.fg ("dim".data)
    ("n/p files  d dismiss  Tab list  Ctrl+D/U scroll  y yank  V visual  Esc close".data)

/-- Assembly part of the overlay `render`: top border, padded content lines,
empty bordered lines up to `targetHeight - 1` rows, the help line
overwriting the last row (diff view with files only), and the bottom
border. -/
def overlayAssemble (env : OverlayEnv) (width : Int) (content : List Str)
    (showHelp : Bool) : List Str :=
  let targetHeight := overlayTargetHeight env
  let innerWidth := width - 4
  let output0 := overlayTopBorder env width :: content.map (overlayPadLine env innerWidth)
  let output1 := output0 ++
    List.replicate ((targetHeight - 1).toNat - output0.length) (overlayEmptyLine env width)
  let output2 :=
    if showHelp then
      output1.set (output1.length - 1) (overlayPadLine env innerWidth (overlayHelpLine env))
    else output1
  output2 ++ [overlayBottomBorder env width]

/-- Source `createOverlayHandler(...).render(width)` (overlay.ts): build the
content lines for the current mode, assemble the bordered fixed-height
block, and return it together with the updated handler state; `none` is the
error outcome of the `currentFile.path` TypeError in the diff-view branch
(which aborts the render before any assembly). -/
def overlayRender (env : OverlayEnv) (st : OverlayState) (width : Int) :
    Option (List Str × OverlayState) :=
  match overlayContent env st width with
  | none => none
  | some built =>
    let showHelp := decide (0 < st.modal.fileList.length) &&
      !st.modal.filePickerOpen
    some (overlayAssemble env width built.1 showHelp,
      { st with viewController := built.2 })

/-! ## Helper lemmas about the scanners and the truncation loop -/

/-- Characters that may appear in the body of an accumulating escape
sequence: anything except the escape character and the terminating `m`. -/
abbrev EscBody (body : Str) : Prop := ∀ c ∈ body, c ≠ escChar ∧ c ≠ 'm'

theorem scanState_append (a b : Str) (st : Bool) :
    scanState (a ++ b) st = scanState b (scanState a st) := by
  induction a generalizing st with
  | nil => rfl
  | cons c rest ih =>
    simp only [List.cons_append, scanState]
    split_ifs
    all_goals apply ih

theorem visibleCount_append (a b : Str) (st : Bool) :
    visibleCount (a ++ b) st = visibleCount a st + visibleCount b (scanState a st) := by
  induction a generalizing st with
  | nil => simp [visibleCount, scanState]
  | cons c rest ih =>
    simp only [List.cons_append, visibleCount, scanState]
    split_ifs
    all_goals simp [ih]
    all_goals omega

theorem visibleCount_resetSeq (st : Bool) : visibleCount resetSeq st = 0 := by
  cases st <;> decide

theorem scanState_resetSeq (st : Bool) : scanState resetSeq st = false := by
  cases st <;> decide

theorem visibleCount_escBody (body : Str) (h : EscBody body) (l : Str) :
    visibleCount (body ++ l) true = visibleCount l true := by
  induction body with
  | nil => rfl
  | cons c rest ih =>
    have hc := h c (List.mem_cons_self c rest)
    have hrest : EscBody rest := fun x hx => h x (List.mem_cons_of_mem c hx)
    simp only [List.cons_append, visibleCount, if_neg hc.1, if_pos rfl, if_neg hc.2]
    exact ih hrest

theorem scanState_escBody (body : Str) (h : EscBody body) (l : Str) :
    scanState (body ++ l) true = scanState l true := by
  induction body with
  | nil => rfl
  | cons c rest ih =>
    have hc := h c (List.mem_cons_self c rest)
    have hrest : EscBody rest := fun x hx => h x (List.mem_cons_of_mem c hx)
    simp only [List.cons_append, scanState, if_neg hc.1, if_pos rfl, if_neg hc.2]
    exact ih hrest

theorem visibleCount_completeEscape (body : Str) (h : EscBody body) :
    visibleCount ((escChar :: body) ++ ['m']) false = 0 ∧
      scanState ((escChar :: body) ++ ['m']) false = false := by
  constructor
  · show visibleCount (escChar :: (body ++ ['m'])) false = 0
    have h1 : visibleCount (escChar :: (body ++ ['m'])) false =
        visibleCount (body ++ ['m']) true := by
      simp [visibleCount]
    rw [h1, visibleCount_escBody body h ['m']]
    decide
  · show scanState (escChar :: (body ++ ['m'])) false = false
    have h1 : scanState (escChar :: (body ++ ['m'])) false =
        scanState (body ++ ['m']) true := by
      simp [scanState]
    rw [h1, scanState_escBody body h ['m']]
    decide

theorem visibleCount_truncLoop_le (width : Int) (l : Str) :
    ∀ (inE : Bool) (esc : Str) (seen : Int),
      (inE = true → ∃ body, esc = escChar :: body ∧ EscBody body) →
      visibleCount (truncLoop width l inE esc seen) false ≤ (width - seen).toNat := by
  induction l with
  | nil => intro inE esc seen _; simp [truncLoop, visibleCount]
  | cons c rest ih =>
    intro inE esc seen hesc
    simp only [truncLoop]
    by_cases hc : c = escChar
    · subst hc
      rw [if_pos rfl]
      exact ih true [escChar] seen (fun _ => ⟨[], rfl, fun x hx => absurd hx (by simp)⟩)
    · rw [if_neg hc]
      cases inE with
      | true =>
        rw [if_pos rfl]
        obtain ⟨body, rfl, hbody⟩ := hesc rfl
        by_cases hm : c = 'm'
        · subst hm
          rw [if_pos rfl, visibleCount_append]
          obtain ⟨h1, h2⟩ := visibleCount_completeEscape body hbody
          rw [h1, h2]
          simpa using ih false [] seen (by simp)
        · rw [if_neg hm]
          refine ih true ((escChar :: body) ++ [c]) seen (fun _ => ⟨body ++ [c], by simp, ?_⟩)
          intro x hx
          rcases List.mem_append.mp hx with hx' | hx'
          · exact hbody x hx'
          · rcases List.mem_singleton.mp hx' with rfl
            exact ⟨hc, hm⟩
      | false =>
        rw [if_neg (by simp)]
        by_cases hw : seen ≥ width
        · rw [if_pos hw]; simp [visibleCount]
        · rw [if_neg hw]
          have hrec := ih false esc (seen + 1) (by simp)
          simp only [visibleCount, if_neg hc, Bool.false_eq_true, if_false]
          omega

theorem visibleCount_truncateToWidth_le (line : Str) (width : Int) :
    visibleCount (truncateToWidth line width) false ≤ width.toNat := by
  have hloop := visibleCount_truncLoop_le width line false [] 0 (by simp)
  simp only [truncateToWidth]
  split_ifs with h
  · rw [visibleCount_append, visibleCount_resetSeq]
    omega
  · omega

/-- A string that starts with a complete escape sequence whose second
character is `[`: the shape of every row content the inline view ever
hands to `truncateToWidth` (the color or background-set code comes first). -/
def GoodStart (l : Str) : Prop :=
  ∃ body rest, l = escChar :: '[' :: (body ++ 'm' :: rest) ∧ EscBody body

theorem truncLoop_cons (width : Int) (c : Char) (l : Str) (inE : Bool)
    (esc : Str) (seen : Int) :
    truncLoop width (c :: l) inE esc seen =
      if c = escChar then truncLoop width l true [c] seen
      else if inE then
        if c = 'm' then (esc ++ [c]) ++ truncLoop width l false [] seen
        else truncLoop width l true (esc ++ [c]) seen
      else if seen ≥ width then []
      else c :: truncLoop width l false esc (seen + 1) := rfl

theorem truncLoop_emits_escape (width : Int) (body : Str) (h : EscBody body) :
    ∀ (rest acc : Str) (seen : Int),
      truncLoop width (body ++ 'm' :: rest) true acc seen =
        (acc ++ body ++ ['m']) ++ truncLoop width rest false [] seen := by
  induction body with
  | nil =>
    intro rest acc seen
    show truncLoop width ('m' :: rest) true acc seen = _
    rw [truncLoop_cons, if_neg (by decide : ¬ 'm' = escChar), if_pos rfl, if_pos rfl]
    simp
  | cons c cs ih =>
    intro rest acc seen
    have hc := h c (List.mem_cons_self c cs)
    have hcs : EscBody cs := fun x hx => h x (List.mem_cons_of_mem c hx)
    show truncLoop width (c :: (cs ++ 'm' :: rest)) true acc seen = _
    rw [truncLoop_cons, if_neg hc.1, if_pos rfl, if_neg hc.2]
    rw [ih hcs rest (acc ++ [c]) seen]
    simp

theorem truncLoop_goodStart (width : Int) (line : Str) (h : GoodStart line)
    (seen : Int) (acc : Str) :
    ∃ tail, truncLoop width line false acc seen = escChar :: '[' :: tail := by
  obtain ⟨body, rest, rfl, hbody⟩ := h
  have hbody' : EscBody ('[' :: body) := by
    intro x hx
    rcases List.mem_cons.mp hx with rfl | hx'
    · exact ⟨by decide, by decide⟩
    · exact hbody x hx'
  show ∃ tail, truncLoop width (escChar :: ('[' :: (body ++ 'm' :: rest))) false acc seen = _
  rw [truncLoop_cons, if_pos rfl]
  have hshape : ('[' :: (body ++ 'm' :: rest)) = (('[' :: body) ++ 'm' :: rest) := by simp
  rw [hshape, truncLoop_emits_escape width ('[' :: body) hbody' rest [escChar] seen]
  exact ⟨(body ++ ['m']) ++ truncLoop width rest false [] seen, by simp⟩

theorem truncateToWidth_goodStart (line : Str) (width : Int) (h : GoodStart line) :
    resetSeq <:+ truncateToWidth line width ∧
      scanState (truncateToWidth line width) false = false := by
  obtain ⟨tail, htl⟩ := truncLoop_goodStart width line h 0 []
  have hinf : [escChar, '['] <:+: truncLoop width line false [] 0 := by
    rw [htl]
    exact ⟨[], tail, rfl⟩
  simp only [truncateToWidth]
  by_cases hsuf : resetSeq <:+ truncLoop width line false [] 0
  · rw [if_neg (by tauto)]
    refine ⟨hsuf, ?_⟩
    obtain ⟨a, ha⟩ := hsuf
    rw [← ha, scanState_append, scanState_resetSeq]
  · rw [if_pos ⟨hinf, hsuf⟩]
    refine ⟨List.suffix_append _ _, ?_⟩
    rw [scanState_append, scanState_resetSeq]

theorem mapWithIndex_mem {α β : Type} {f : Nat → α → β} :
    ∀ (l : List α) (i : Nat) (b : β), b ∈ mapWithIndex f i l →
      ∃ j a, a ∈ l ∧ b = f j a := by
  intro l
  induction l with
  | nil => intro i b hb; cases hb
  | cons a as ih =>
    intro i b hb
    rcases List.mem_cons.mp hb with rfl | hb'
    · exact ⟨i, a, List.mem_cons_self a as, rfl⟩
    · obtain ⟨j, a', ha', rfl⟩ := ih (i + 1) _ hb'
      exact ⟨j, a', List.mem_cons_of_mem a ha', rfl⟩

theorem jsSlice_mem {α : Type} {l : List α} {s e : Int} {a : α}
    (h : a ∈ jsSlice l s e) : a ∈ l := by
  simp only [jsSlice] at h
  exact List.mem_of_mem_take (List.mem_of_mem_drop h)

theorem greenSeq_goodStart (l : Str) : GoodStart (greenSeq ++ l) :=
  ⟨['3', '2'], l, by simp [greenSeq], by decide⟩

theorem redSeq_goodStart (l : Str) : GoodStart (redSeq ++ l) :=
  ⟨['3', '1'], l, by simp [redSeq], by decide⟩

theorem dimSeq_goodStart (l : Str) : GoodStart (dimSeq ++ l) :=
  ⟨['2'], l, by simp [dimSeq], by decide⟩

theorem bgOn_goodStart (l : Str) : GoodStart (bgOnSeq ++ l) :=
  ⟨['4', '8', ';', '5', ';', '2', '3', '6'], l, by simp [bgOnSeq], by decide⟩

theorem renderHunk_goodStart (hl : Option HighlightFn) (fp : Str)
    (hunk : DiffLine) (w : Nat) : GoodStart (renderHunk hl fp hunk w).content := by
  cases htype : hunk.type <;> simp only [renderHunk, htype] <;>
    rw [List.append_assoc, List.append_assoc, List.append_assoc]
  · exact greenSeq_goodStart _
  · exact redSeq_goodStart _
  · exact dimSeq_goodStart _

theorem separatorLine_goodStart : GoodStart separatorLine.content := by
  have h : separatorLine.content = dimSeq ++ (['·', '·', '·'] ++ resetSeq) := by
    simp [separatorLine]
  rw [h]
  exact dimSeq_goodStart _

theorem buildLines_goodStart (hl : Option HighlightFn) (fp : Str) (w : Nat) :
    ∀ (hunks : List DiffLine) (prev : Option Int) (i : Nat),
      ∀ l ∈ (buildLines hl fp w hunks prev i).1, GoodStart l.content := by
  intro hunks
  induction hunks with
  | nil => intro prev i l hl'; cases hl'
  | cons hunk rest ih =>
    intro prev i l hl'
    simp only [buildLines] at hl'
    split_ifs at hl'
    · rcases List.mem_cons.mp hl' with rfl | hl''
      · exact separatorLine_goodStart
      · rcases List.mem_cons.mp hl'' with rfl | hl'''
        · exact renderHunk_goodStart hl fp hunk w
        · exact ih _ _ l hl'''
    · rcases List.mem_cons.mp hl' with rfl | hl''
      · exact renderHunk_goodStart hl fp hunk w
      · exact ih _ _ l hl''

theorem buildRenderedLines_goodStart (hl : Option HighlightFn) (d : FileDiff) :
    ∀ l ∈ (buildRenderedLines hl d).1, GoodStart l.content := by
  intro l hl'
  simp only [buildRenderedLines] at hl'
  split_ifs at hl'
  · cases hl'
  · exact buildLines_goodStart hl d.filePath _ d.hunks none 0 l hl'

theorem ite_wrap_cases {C : Prop} [Decidable C] (a b : Str) :
    (if C then bgOnSeq ++ a else b) = b ∨
      ∃ tail, (if C then bgOnSeq ++ a else b) = bgOnSeq ++ tail := by
  by_cases h : C
  · exact Or.inr ⟨a, by rw [if_pos h]⟩
  · exact Or.inl (by rw [if_neg h])

theorem render_rows_shape (v : InlineDiffView) (width h : Int) :
    ∀ r ∈ (v.render width h).2,
      ∃ content line, line ∈ v.renderedLines ∧
        r = truncateToWidth content width ∧
        (content = line.content ∨ ∃ tail, content = bgOnSeq ++ tail) := by
  intro r hr
  simp only [InlineDiffView.render] at hr
  obtain ⟨j, line, hline, rfl⟩ := mapWithIndex_mem _ _ _ hr
  have hmem := jsSlice_mem hline
  refine ⟨_, line, hmem, rfl, ?_⟩
  exact ite_wrap_cases _ _

/-! ## ViewState invariant -/

/-- The spec's ViewState invariant (§3): the cursor is in `[0, rows.length)`
when there are rows and 0 otherwise, and the scroll offset is
non-negative. -/
def Invariant (v : InlineDiffView) : Prop :=
  0 ≤ v.cursorLine ∧
  (v.renderedLines.length = 0 → v.cursorLine = 0) ∧
  (0 < v.renderedLines.length → v.cursorLine < (v.renderedLines.length : Int)) ∧
  0 ≤ v.scrollOffset

/-- A one-step unfolding of the state part of `render` (the rows are
dropped): the cursor and the rows are unchanged and the scroll offset moves
to the auto-scrolled, clamped value. -/
theorem render_state_fields (v : InlineDiffView) (w h : Int) :
    (v.render w h).1.scrollOffset =
      min (if v.cursorLine <
            (if v.cursorLine ≥ v.scrollOffset + h then v.cursorLine - h + 1
             else v.scrollOffset)
           then v.cursorLine
           else (if v.cursorLine ≥ v.scrollOffset + h then v.cursorLine - h + 1
                 else v.scrollOffset))
          (max 0 ((v.renderedLines.length : Int) - h)) ∧
    (v.render w h).1.cursorLine = v.cursorLine ∧
    (v.render w h).1.renderedLines = v.renderedLines :=
  ⟨rfl, rfl, rfl⟩

theorem invariant_make (d : FileDiff) (hl : Option HighlightFn) :
    Invariant (InlineDiffView.make d hl) := by
  simp only [Invariant, InlineDiffView.make]
  exact ⟨le_refl 0, fun _ => trivial, fun h => by exact_mod_cast h, le_refl 0⟩

theorem invariant_setDiff (v : InlineDiffView) (d : FileDiff) :
    Invariant (v.setDiff d) := by
  simp only [Invariant, InlineDiffView.setDiff]
  exact ⟨le_refl 0, fun _ => trivial, fun h => by exact_mod_cast h, le_refl 0⟩

theorem invariant_setCursor (v : InlineDiffView) (n : Int) (h : Invariant v) :
    Invariant (v.setCursor n) := by
  obtain ⟨h1, h2, h3, h4⟩ := h
  simp only [InlineDiffView.setCursor, Invariant]
  refine ⟨?_, ?_, ?_, h4⟩ <;> omega

theorem invariant_moveCursor (v : InlineDiffView) (n : Int) (h : Invariant v) :
    Invariant (v.moveCursor n) :=
  invariant_setCursor v (v.cursorLine + n) h

theorem invariant_scrollUp (v : InlineDiffView) (n : Int) (h : Invariant v) :
    Invariant (v.scrollUp n) := by
  obtain ⟨h1, h2, h3, h4⟩ := h
  simp only [InlineDiffView.scrollUp, InlineDiffView.moveCursor,
    InlineDiffView.setCursor, Invariant]
  refine ⟨?_, ?_, ?_, ?_⟩ <;> omega

theorem invariant_scrollDown (v : InlineDiffView) (n : Int) (hn : 0 ≤ n)
    (h : Invariant v) : Invariant (v.scrollDown n) := by
  obtain ⟨h1, h2, h3, h4⟩ := h
  simp only [InlineDiffView.scrollDown, InlineDiffView.moveCursor,
    InlineDiffView.setCursor, Invariant]
  refine ⟨?_, ?_, ?_, ?_⟩ <;> omega

theorem invariant_scrollToTop (v : InlineDiffView) :
    Invariant v.scrollToTop := by
  simp only [InlineDiffView.scrollToTop, Invariant]
  exact ⟨le_refl 0, fun _ => trivial, fun h => by exact_mod_cast h, le_refl 0⟩

theorem invariant_scrollToBottom (v : InlineDiffView) :
    Invariant v.scrollToBottom := by
  simp only [InlineDiffView.scrollToBottom, Invariant]
  refine ⟨?_, ?_, ?_, ?_⟩ <;> omega

theorem invariant_enterVisualMode (v : InlineDiffView) (h : Invariant v) :
    Invariant v.enterVisualMode := h

theorem invariant_exitVisualMode (v : InlineDiffView) (h : Invariant v) :
    Invariant v.exitVisualMode := h

theorem invariant_render (v : InlineDiffView) (w hh : Int) (h : Invariant v) :
    Invariant (v.render w hh).1 := by
  obtain ⟨h1, h2, h3, h4⟩ := h
  obtain ⟨hs, hc, hr⟩ := render_state_fields v w hh
  simp only [Invariant, hs, hc, hr]
  refine ⟨h1, h2, h3, ?_⟩
  split_ifs <;> omega

/-! ## Separator insertion: claim-level and amended reference constructions -/

/-- Modelled from the words of claim C1 (and spec §4.3 Load): a Separator is
inserted before a record exactly when the tracked previous anchor and the
current anchor are both defined and the current anchor is NOT exactly one
more than the previous one.  Produces the row index list, `-1` marking a
separator. -/
def claimSepIdx : List DiffLine → Option Int → Nat → List Int
  | [], _, _ => []
  | hunk :: rest, prev, i =>
    let cur := anchorLineNumber hunk
    let prev' := match cur with
      | some c => some c
      | none => prev
    let tail := claimSepIdx rest prev' (i + 1)
    let sep : Bool := match prev, cur with
      | some p, some c => decide (¬ c = p + 1)
      | _, _ => false
    if sep then (-1 : Int) :: (i : Int) :: tail else (i : Int) :: tail

/-- Modelled from the amended claim: a Separator is inserted exactly when
both anchors are defined and the current anchor exceeds the previous one by
MORE than one (the source's `currentLineNumber > previousLineNumber + 1`). -/
def amendedSepIdx : List DiffLine → Option Int → Nat → List Int
  | [], _, _ => []
  | hunk :: rest, prev, i =>
    let cur := anchorLineNumber hunk
    let prev' := match cur with
      | some c => some c
      | none => prev
    let tail := amendedSepIdx rest prev' (i + 1)
    let sep : Bool := match prev, cur with
      | some p, some c => decide (c > p + 1)
      | _, _ => false
    if sep then (-1 : Int) :: (i : Int) :: tail else (i : Int) :: tail

theorem buildLines_idx_eq_amended (hl : Option HighlightFn) (fp : Str) (w : Nat) :
    ∀ (hunks : List DiffLine) (prev : Option Int) (i : Nat),
      (buildLines hl fp w hunks prev i).2 = amendedSepIdx hunks prev i := by
  intro hunks
  induction hunks with
  | nil => intro prev i; rfl
  | cons hunk rest ih =>
    intro prev i
    simp only [buildLines, amendedSepIdx]
    split_ifs
    · simp [ih]
    · simp [ih]

theorem buildLines_lengths (hl : Option HighlightFn) (fp : Str) (w : Nat) :
    ∀ (hunks : List DiffLine) (prev : Option Int) (i : Nat),
      (buildLines hl fp w hunks prev i).1.length =
        (buildLines hl fp w hunks prev i).2.length := by
  intro hunks
  induction hunks with
  | nil => intro prev i; rfl
  | cons hunk rest ih =>
    intro prev i
    simp only [buildLines]
    split_ifs
    · simp [ih]
    · simp [ih]

/-! ## SessionState invariant (modal) -/

/-- The selection half of the spec's SessionState invariant (§3):
`selectedIndex` is in range when the list is non-empty and 0 when empty. -/
def SelClause (m : DiffReviewModal) : Prop :=
  (m.fileList.length = 0 → m.selectedIndex = 0) ∧
  (0 < m.fileList.length →
    0 ≤ m.selectedIndex ∧ m.selectedIndex < (m.fileList.length : Int))

/-- The picker half of the SessionState invariant: the same bounds for
`filePickerIndex` whenever the picker is open. -/
def PickerClause (m : DiffReviewModal) : Prop :=
  m.filePickerOpen = true →
    (m.fileList.length = 0 → m.filePickerIndex = 0) ∧
    (0 < m.fileList.length →
      0 ≤ m.filePickerIndex ∧ m.filePickerIndex < (m.fileList.length : Int))

/-- The full SessionState invariant of the spec (§3). -/
def SessionInvariant (m : DiffReviewModal) : Prop :=
  SelClause m ∧ PickerClause m

theorem selectedIndex_nonneg_of_selClause {m : DiffReviewModal}
    (h : SelClause m) : 0 ≤ m.selectedIndex := by
  obtain ⟨h1, h2⟩ := h
  by_cases hl : m.fileList.length = 0
  · omega
  · exact (h2 (by omega)).1

theorem sessionInvariant_selectNext (m : DiffReviewModal)
    (h : SessionInvariant m) : SessionInvariant m.selectNext := by
  obtain ⟨⟨h1, h2⟩, hp⟩ := h
  simp only [DiffReviewModal.selectNext]
  split_ifs with hempty
  · exact ⟨⟨h1, h2⟩, hp⟩
  · have hpos : (0 : Int) < (m.fileList.length : Int) := by exact_mod_cast by omega
    have hnn : 0 ≤ (m.selectedIndex + 1).tmod (m.fileList.length : Int) :=
      Int.tmod_nonneg _ (by have := (h2 (by omega)).1; omega)
    have hlt := Int.tmod_lt_of_pos (m.selectedIndex + 1) hpos
    exact ⟨⟨fun hc => absurd hc hempty, fun _ => ⟨hnn, hlt⟩⟩, hp⟩

theorem sessionInvariant_selectPrevious (m : DiffReviewModal)
    (h : SessionInvariant m) : SessionInvariant m.selectPrevious := by
  obtain ⟨⟨h1, h2⟩, hp⟩ := h
  simp only [DiffReviewModal.selectPrevious]
  split_ifs with hempty hzero
  · exact ⟨⟨h1, h2⟩, hp⟩
  · refine ⟨⟨fun hc => absurd hc hempty, fun hpos => ?_⟩, hp⟩
    dsimp only at hpos ⊢
    constructor <;> omega
  · have hb := h2 (by omega)
    refine ⟨⟨fun hc => absurd hc hempty, fun hpos => ?_⟩, hp⟩
    dsimp only at hpos ⊢
    constructor <;> omega

theorem sessionInvariant_selectIndex (m : DiffReviewModal) (i : Int)
    (h : SessionInvariant m) : SessionInvariant (m.selectIndex i) := by
  obtain ⟨⟨h1, h2⟩, hp⟩ := h
  simp only [DiffReviewModal.selectIndex]
  split_ifs with hempty
  · refine ⟨⟨fun _ => rfl, fun hpos => ?_⟩, hp⟩
    dsimp only at hpos ⊢
    omega
  · refine ⟨⟨fun hc => absurd hc hempty, fun hpos => ?_⟩, hp⟩
    dsimp only at hpos ⊢
    constructor <;> omega

theorem sessionInvariant_openFilePicker (m : DiffReviewModal)
    (h : SessionInvariant m) : SessionInvariant m.openFilePicker := by
  obtain ⟨⟨h1, h2⟩, _⟩ := h
  exact ⟨⟨h1, h2⟩, fun _ => ⟨h1, h2⟩⟩

theorem sessionInvariant_closeFilePicker (m : DiffReviewModal)
    (h : SessionInvariant m) : SessionInvariant m.closeFilePicker := by
  obtain ⟨⟨h1, h2⟩, _⟩ := h
  exact ⟨⟨h1, h2⟩, fun hc => absurd hc (by simp [DiffReviewModal.closeFilePicker])⟩

theorem sessionInvariant_filePickerNext (m : DiffReviewModal)
    (h : SessionInvariant m) : SessionInvariant m.filePickerNext := by
  obtain ⟨⟨h1, h2⟩, hp⟩ := h
  simp only [DiffReviewModal.filePickerNext]
  split_ifs with hempty
  · exact ⟨⟨h1, h2⟩, hp⟩
  · refine ⟨⟨h1, h2⟩, fun hopen => ⟨fun hc => absurd hc hempty, fun _ => ?_⟩⟩
    have hpos : (0 : Int) < (m.fileList.length : Int) := by exact_mod_cast by omega
    have hidx := (hp hopen).2 (by omega)
    have hnn : 0 ≤ (m.filePickerIndex + 1).tmod (m.fileList.length : Int) :=
      Int.tmod_nonneg _ (by omega)
    have hlt := Int.tmod_lt_of_pos (m.filePickerIndex + 1) hpos
    exact ⟨hnn, hlt⟩

theorem sessionInvariant_filePickerPrevious (m : DiffReviewModal)
    (h : SessionInvariant m) : SessionInvariant m.filePickerPrevious := by
  obtain ⟨⟨h1, h2⟩, hp⟩ := h
  simp only [DiffReviewModal.filePickerPrevious]
  split_ifs with hempty hzero
  · exact ⟨⟨h1, h2⟩, hp⟩
  · refine ⟨⟨h1, h2⟩, fun hopen => ⟨fun hc => absurd hc hempty, fun _ => ?_⟩⟩
    dsimp only
    constructor <;> omega
  · refine ⟨⟨h1, h2⟩, fun hopen => ⟨fun hc => absurd hc hempty, fun _ => ?_⟩⟩
    have hidx := (hp hopen).2 (by omega)
    dsimp only
    constructor <;> omega

theorem sessionInvariant_confirmFilePicker (m : DiffReviewModal)
    (hopen : m.filePickerOpen = true) (h : SessionInvariant m) :
    SessionInvariant m.confirmFilePickerSelection := by
  obtain ⟨⟨h1, h2⟩, hp⟩ := h
  obtain ⟨hq1, hq2⟩ := hp hopen
  simp only [DiffReviewModal.confirmFilePickerSelection]
  exact ⟨⟨hq1, hq2⟩, fun hc => absurd hc (by simp)⟩

theorem selClause_refresh (sp : StructuredPatchFn) (m : DiffReviewModal)
    (hge : 0 ≤ m.selectedIndex) : SelClause (m.refresh sp) := by
  simp only [DiffReviewModal.refresh, SelClause]
  split_ifs with hempty hover
  · exact ⟨fun _ => rfl, fun hpos => by omega⟩
  · refine ⟨fun hc => absurd hc hempty, fun hpos => ?_⟩
    constructor <;> omega
  · refine ⟨fun hc => absurd hc hempty, fun hpos => ?_⟩
    constructor <;> omega

theorem pickerOpen_refresh (sp : StructuredPatchFn) (m : DiffReviewModal) :
    (m.refresh sp).filePickerOpen = m.filePickerOpen ∧
      (m.refresh sp).filePickerIndex = m.filePickerIndex :=
  ⟨rfl, rfl⟩

theorem sessionInvariant_refresh_closed (sp : StructuredPatchFn)
    (m : DiffReviewModal) (hclosed : m.filePickerOpen = false)
    (h : SessionInvariant m) : SessionInvariant (m.refresh sp) := by
  refine ⟨selClause_refresh sp m (selectedIndex_nonneg_of_selClause h.1), ?_⟩
  intro hopen
  rw [(pickerOpen_refresh sp m).1, hclosed] at hopen
  cases hopen

theorem sessionInvariant_dismiss_closed (sp : StructuredPatchFn)
    (m : DiffReviewModal) (hclosed : m.filePickerOpen = false)
    (h : SessionInvariant m) :
    SessionInvariant (m.dismissSelected sp).2 := by
  simp only [DiffReviewModal.dismissSelected]
  cases hsel : m.selectedFile with
  | none => exact h
  | some p =>
    simp only []
    have hge : 0 ≤ ({ m with diffState := m.diffState.dismissFile p } :
        DiffReviewModal).selectedIndex := selectedIndex_nonneg_of_selClause h.1
    have hsc := selClause_refresh sp
      { m with diffState := m.diffState.dismissFile p } hge
    have hpo := pickerOpen_refresh sp
      { m with diffState := m.diffState.dismissFile p }
    split_ifs with hclamp
    · obtain ⟨hs1, hs2⟩ := hsc
      refine ⟨⟨?_, ?_⟩, ?_⟩
      · intro hc; simp only [] at hc ⊢; omega
      · intro hpos; simp only [] at hpos ⊢; constructor <;> omega
      · intro hopen
        simp only [] at hopen
        rw [hpo.1, hclosed] at hopen
        cases hopen
    · refine ⟨hsc, ?_⟩
      intro hopen
      rw [hpo.1, hclosed] at hopen
      cases hopen

/-! ## Overlay assembly lemmas -/

theorem overlayTargetHeight_ge (env : OverlayEnv) : 20 ≤ overlayTargetHeight env :=
  le_max_left _ _

theorem overlayAssemble_length (env : OverlayEnv) (width : Int)
    (content : List Str) (showHelp : Bool) :
    (overlayAssemble env width content showHelp).length =
      max (content.length + 2) (overlayTargetHeight env).toNat := by
  have ht := overlayTargetHeight_ge env
  simp only [overlayAssemble]
  split_ifs with hs
  · simp only [List.length_append, List.length_set, List.length_cons,
      List.length_map, List.length_replicate, List.length_nil]
    omega
  · simp only [List.length_append, List.length_cons, List.length_map,
      List.length_replicate, List.length_nil]
    omega

theorem set_append_singleton_shape {α : Type} (a : α) (l : List α) (x b : α)
    (hl : 1 ≤ l.length) :
    ((a :: l).set ((a :: l).length - 1) x) ++ [b] =
      a :: ((l.set (l.length - 1) x) ++ [b]) := by
  obtain ⟨k, hk⟩ : ∃ k, l.length = k + 1 := ⟨l.length - 1, by omega⟩
  have h1 : (a :: l).length - 1 = k + 1 := by simp [hk]
  rw [h1, List.set_cons_succ]
  simp [hk]

theorem overlayAssemble_shape (env : OverlayEnv) (width : Int)
    (content : List Str) (showHelp : Bool) :
    ∃ mid, overlayAssemble env width content showHelp =
      overlayTopBorder env width :: (mid ++ [overlayBottomBorder env width]) := by
  have ht := overlayTargetHeight_ge env
  simp only [overlayAssemble]
  split_ifs with hs
  · rw [show (overlayTopBorder env width :: List.map (overlayPadLine env (width - 4)) content) ++
        List.replicate ((overlayTargetHeight env - 1).toNat -
          (overlayTopBorder env width :: List.map (overlayPadLine env (width - 4)) content).length)
          (overlayEmptyLine env width) =
        overlayTopBorder env width :: (List.map (overlayPadLine env (width - 4)) content ++
          List.replicate ((overlayTargetHeight env - 1).toNat -
            (overlayTopBorder env width :: List.map (overlayPadLine env (width - 4)) content).length)
            (overlayEmptyLine env width)) from rfl]
    rw [set_append_singleton_shape _ _ _ _ (by
      simp only [List.length_append, List.length_map, List.length_replicate,
        List.length_cons]
      omega)]
    exact ⟨_, rfl⟩
  · exact ⟨_, rfl⟩

theorem overlayContent_noFiles (env : OverlayEnv) (st : OverlayState)
    (width : Int) (h : st.modal.fileList = []) :
    overlayContent env st width =
      some ([env.fg ("muted".data) ("No files to review".data), [],
        env.fg ("dim".data) ("Press Escape to close".data)],
       st.viewController) := by
  simp only [overlayContent, h]
  rfl

theorem overlayContent_isSome (env : OverlayEnv) (st : OverlayState)
    (width : Int) (hsel : SelClause st.modal) :
    ∃ built, overlayContent env st width = some built := by
  obtain ⟨h1, h2⟩ := hsel
  simp only [overlayContent]
  split_ifs with hempty hpicker hneg
  · exact ⟨_, rfl⟩
  · exact ⟨_, rfl⟩
  · have hpos : 0 < st.modal.fileList.length := by omega
    obtain ⟨hge, hlt⟩ := h2 hpos
    exact absurd hneg (by omega)
  · have hpos : 0 < st.modal.fileList.length := by omega
    obtain ⟨hge, hlt⟩ := h2 hpos
    cases hget : st.modal.fileList.get? st.modal.selectedIndex.toNat with
    | none =>
      rw [List.get?_eq_none] at hget
      omega
    | some f =>
      cases hvc : st.viewController with
      | none => exact ⟨_, rfl⟩
      | some vc => exact ⟨_, rfl⟩

theorem overlayContent_throw (env : OverlayEnv) (st : OverlayState)
    (width : Int) (hclosed : st.modal.filePickerOpen = false)
    (hpos : 0 < st.modal.fileList.length)
    (hout : st.modal.selectedIndex < 0 ∨
      (st.modal.fileList.length : Int) ≤ st.modal.selectedIndex) :
    overlayContent env st width = none := by
  simp only [overlayContent]
  rw [if_neg (by omega : ¬ st.modal.fileList.length = 0),
    if_neg (by simp [hclosed])]
  rcases hout with hneg | hover
  · rw [if_pos hneg]
  · rw [if_neg (by omega : ¬ st.modal.selectedIndex < 0)]
    have hnone : st.modal.fileList.get? st.modal.selectedIndex.toNat = none := by
      rw [List.get?_eq_none]
      omega
    rw [hnone]

end PiDiffUi

namespace PiDiffUi

/-- C7: `computeDiff` returns a zero-line result with `additions = 0`,
`deletions = 0` and `isNewFile = false` whenever both inputs are empty
(explicit short-circuit), and in general reports `isNewFile = true` exactly
when the baseline is empty and the current content is non-empty. -/
theorem computeDiff_emptyShortCircuit_and_isNewFile
    (sp : StructuredPatchFn) (p original current : Str) :
    (original = [] → current = [] →
      computeDiff sp p original current =
        { filePath := p, isNewFile := false, hunks := [],
          additions := 0, deletions := 0 }) ∧
    ((computeDiff sp p original current).isNewFile = true ↔
      (original = [] ∧ ¬ current = [])) := by
  constructor
  · intro ho hc
    simp [computeDiff, ho, hc]
  · by_cases ho : original = [] <;> by_cases hc : current = [] <;>
      simp [computeDiff, ho, hc]

/-- Witness for C7 at concrete inputs: an empty baseline and a one-character
current content give `isNewFile = true`, and two empty inputs give the
all-zero result. -/
theorem computeDiff_emptyShortCircuit_and_isNewFile_witness :
    ((computeDiff (fun _ _ => []) ['p'] [] [] =
        { filePath := ['p'], isNewFile := false, hunks := [],
          additions := 0, deletions := 0 }) ∧
      ((computeDiff (fun _ _ => []) ['p'] [] ['a']).isNewFile = true)) := by
  refine ⟨(computeDiff_emptyShortCircuit_and_isNewFile
      (fun _ _ => []) ['p'] [] []).1 rfl rfl, ?_⟩
  exact (computeDiff_emptyShortCircuit_and_isNewFile
      (fun _ _ => []) ['p'] [] ['a']).2.mpr (by simp)

/-! ## Concrete fixtures used by witnesses and counterexamples -/

/-- Four context lines at new line numbers 1, 2, 10, 11: the spec's
separator-insertion example. -/
def exampleContextDiff : FileDiff :=
  { filePath := ['t'], isNewFile := false, additions := 0, deletions := 0,
    hunks := [
      { type := .context, content := ['a'], oldLineNumber := some 1,
        newLineNumber := some 1 },
      { type := .context, content := ['b'], oldLineNumber := some 2,
        newLineNumber := some 2 },
      { type := .context, content := ['c'], oldLineNumber := some 9,
        newLineNumber := some 10 },
      { type := .context, content := ['d'], oldLineNumber := some 10,
        newLineNumber := some 11 }] }

/-- A removed/added pair whose anchors are both the line number 2. -/
def examplePairDiff : FileDiff :=
  { filePath := ['t'], isNewFile := false, additions := 1, deletions := 1,
    hunks := [
      { type := .removed, content := ['x'], oldLineNumber := some 2,
        newLineNumber := none },
      { type := .added, content := ['y'], oldLineNumber := none,
        newLineNumber := some 2 }] }

/-- The view over the four context lines (5 rows: 2 content, separator,
2 content). -/
def exampleView : InlineDiffView := InlineDiffView.make exampleContextDiff none

/-- A trivial stand-in for the external diff library. -/
def spEmpty : StructuredPatchFn := fun _ _ => []

/-- A ledger with two changed files, built through `trackFile`. -/
def exampleLedger : DiffState :=
  (DiffState.empty.trackFile ['a'] ['x'] ['y']).trackFile ['b'] ['x'] ['z']

/-! ## Claim C1 -/

/-- C1 counterexample: on the removed/added pair whose anchors are 2 and 2,
the claim's rule ("separator exactly when both anchors are defined and the
current one is not exactly one more than the previous") inserts a separator
(row indices `[0, -1, 1]`), but the code inserts none (`[0, 1]`): the
claimed rule disagrees with `buildRenderedLines` at this input. -/
theorem separator_claim_counterexample :
    (buildRenderedLines none examplePairDiff).2 = [0, 1] ∧
    claimSepIdx examplePairDiff.hunks none 0 = [0, -1, 1] ∧
    ([0, 1] : List Int) ≠ [0, -1, 1] := by
  refine ⟨by decide, by decide, by decide⟩

/-- C1 (amended): the row sequence is built by walking the records in
order, and a Separator row is inserted before a record exactly when the
last tracked anchor (of an earlier record with a defined anchor) and the
current anchor are both defined and the current anchor exceeds the previous
one by MORE than one; the four-context-line example at new line numbers
1, 2, 10, 11 yields exactly 5 rows — 2 content, 1 separator, 2 content —
with the separator at index 2. -/
theorem buildRenderedLines_separator_rule :
    (∀ (hl : Option HighlightFn) (d : FileDiff),
      (buildRenderedLines hl d).2 = amendedSepIdx d.hunks none 0 ∧
      (buildRenderedLines hl d).1.length = (buildRenderedLines hl d).2.length) ∧
    (buildRenderedLines none exampleContextDiff).1.length = 5 ∧
    (buildRenderedLines none exampleContextDiff).2 = [0, 1, -1, 2, 3] ∧
    exampleView.isSeparatorLine 2 = true ∧
    exampleView.isSeparatorLine 0 = false ∧
    exampleView.isSeparatorLine 1 = false ∧
    exampleView.isSeparatorLine 3 = false ∧
    exampleView.isSeparatorLine 4 = false := by
  refine ⟨fun hl d => ⟨?_, ?_⟩, by decide, by decide,
    by decide, by decide, by decide, by decide, by decide⟩
  · simp only [buildRenderedLines]
    split_ifs with hempty
    · rw [hempty]; rfl
    · exact buildLines_idx_eq_amended hl d.filePath _ d.hunks none 0
  · simp only [buildRenderedLines]
    split_ifs with hempty
    · rfl
    · exact buildLines_lengths hl d.filePath _ d.hunks none 0

/-! ## Claim C2 -/

/-- C2 counterexample: `scrollDown(-1)` (a negative scroll amount) drives
the scroll offset to `-1`, violating the ViewState invariant
(`scrollOffset ≥ 0`); the lower bound is not clamped by `scrollDown`. -/
theorem viewInvariant_claim_counterexample :
    Invariant exampleView ∧ ¬ Invariant (exampleView.scrollDown (-1)) := by
  unfold Invariant
  decide

/-- C2 (amended): the constructor establishes the ViewState invariant, and
every public operation preserves it — with the scroll-down amount
restricted to `n ≥ 0` (the code's `scrollDown` clamps only from above, so a
negative amount escapes the `scrollOffset ≥ 0` bound); `setDiff` in
addition resets the cursor to 0, the scroll offset to 0 and visual mode to
off.  All operations are total functions (clamping, never an error). -/
theorem inlineView_invariant_preservation :
    (∀ (d : FileDiff) (hl : Option HighlightFn),
      Invariant (InlineDiffView.make d hl)) ∧
    (∀ v : InlineDiffView, Invariant v →
      (∀ d, Invariant (v.setDiff d) ∧ (v.setDiff d).cursorLine = 0 ∧
        (v.setDiff d).scrollOffset = 0 ∧ (v.setDiff d).visualMode = false) ∧
      (∀ n, Invariant (v.setCursor n)) ∧
      (∀ n, Invariant (v.moveCursor n)) ∧
      (∀ n, Invariant (v.scrollUp n)) ∧
      (∀ n, 0 ≤ n → Invariant (v.scrollDown n)) ∧
      Invariant v.scrollToTop ∧
      Invariant v.scrollToBottom ∧
      Invariant v.enterVisualMode ∧
      Invariant v.exitVisualMode ∧
      (∀ w h, Invariant (v.render w h).1)) := by
  refine ⟨invariant_make, fun v hv => ⟨?_, ?_, ?_, ?_, ?_, ?_, ?_, ?_, ?_, ?_⟩⟩
  · exact fun d => ⟨invariant_setDiff v d, rfl, rfl, rfl⟩
  · exact fun n => invariant_setCursor v n hv
  · exact fun n => invariant_moveCursor v n hv
  · exact fun n => invariant_scrollUp v n hv
  · exact fun n hn => invariant_scrollDown v n hn hv
  · exact invariant_scrollToTop v
  · exact invariant_scrollToBottom v
  · exact invariant_enterVisualMode v hv
  · exact invariant_exitVisualMode v hv
  · exact fun w h => invariant_render v w h hv

/-- Witness for C2 at a concrete state: setting the cursor to 7 on the
5-row example view keeps the invariant. -/
theorem inlineView_invariant_preservation_witness :
    Invariant (exampleView.setCursor 7) :=
  ((inlineView_invariant_preservation.2 exampleView
    (by unfold Invariant; decide)).2.1) 7

/-! ## Claim C3 -/

/-- C3: every row returned by `render(width, height)` contains at most
`width` visible characters; characters inside recognized ANSI escape
sequences do not count. -/
theorem render_rows_visible_le_width (v : InlineDiffView) (width h : Int)
    (hw : 0 ≤ width) : ∀ r ∈ (v.render width h).2,
      (visibleCount r false : Int) ≤ width := by
  intro r hr
  obtain ⟨content, line, _, rfl, _⟩ := render_rows_shape v width h r hr
  have hb := visibleCount_truncateToWidth_le content width
  omega

/-- Witness for C3: the first row of the example view rendered at width 5
has at most 5 visible characters. -/
theorem render_rows_visible_le_width_witness :
    (visibleCount ((exampleView.render 5 3).2.headI) false : Int) ≤ 5 :=
  render_rows_visible_le_width exampleView 5 3 (by decide) _ (by decide)

/-! ## Claim C4 -/

/-- Modelled from the words of claim C4 and spec §4.3 Render steps 1-2: the
sequential auto-scroll correction followed by clamping the offset into
`[0, max 0 (len - height)]`. -/
def specAutoScrollOffset (cursor scroll height len : Int) : Int :=
  let o1 := if cursor ≥ scroll + height then cursor - height + 1 else scroll
  let o2 := if cursor < o1 then cursor else o1
  max 0 (min o2 (max 0 (len - height)))

/-- C4: `render` performs the auto-scroll correction and the clamp exactly
as specified, and consequently (non-empty rows, height ≥ 1, state
satisfying the invariant) the cursor row lies inside the returned window:
`scrollOffset ≤ cursorLine < scrollOffset + height`. -/
theorem render_autoscroll_and_window (v : InlineDiffView) (w h : Int)
    (hInv : Invariant v) (hlen : 0 < v.renderedLines.length) (hh : 1 ≤ h) :
    (v.render w h).1.scrollOffset =
      specAutoScrollOffset v.cursorLine v.scrollOffset h
        (v.renderedLines.length : Int) ∧
    0 ≤ (v.render w h).1.scrollOffset ∧
    (v.render w h).1.scrollOffset ≤ max 0 ((v.renderedLines.length : Int) - h) ∧
    (v.render w h).1.scrollOffset ≤ v.cursorLine ∧
    v.cursorLine < (v.render w h).1.scrollOffset + h ∧
    (v.render w h).1.cursorLine = v.cursorLine := by
  obtain ⟨h1, h2, h3, h4⟩ := hInv
  obtain ⟨hs, hc, hr⟩ := render_state_fields v w h
  simp only [specAutoScrollOffset, hs, hc, and_true]
  have h5 := h3 hlen
  by_cases hA : v.cursorLine ≥ v.scrollOffset + h
  · simp only [if_pos hA]
    by_cases hB : v.cursorLine < v.cursorLine - h + 1
    · simp only [if_pos hB]; omega
    · simp only [if_neg hB]; omega
  · simp only [if_neg hA]
    by_cases hB : v.cursorLine < v.scrollOffset
    · simp only [if_pos hB]; omega
    · simp only [if_neg hB]; omega

/-- Witness for C4: on the 5-row example view with height 3, the cursor
stays inside the rendered window. -/
theorem render_autoscroll_and_window_witness :
    (exampleView.render 10 3).1.scrollOffset ≤ exampleView.cursorLine ∧
    exampleView.cursorLine < (exampleView.render 10 3).1.scrollOffset + 3 := by
  have hres := render_autoscroll_and_window exampleView 10 3
    (by unfold Invariant; decide) (by decide) (by decide)
  exact ⟨hres.2.2.2.1, hres.2.2.2.2.1⟩

/-! ## Claim C5 -/

/-- C5 counterexample: on the 5-row example view, `scrollDown(7)` sets the
scroll offset to 5 (clamped above by `rows.length`), not to
`max 0 (0 + 7) = 7` as the claim's "adjusted by +n, clamped to ≥ 0"
prescribes. -/
theorem scrollDown_claim_counterexample :
    (exampleView.scrollDown 7).scrollOffset = 5 ∧
    max 0 (exampleView.scrollOffset + 7) = 7 ∧ ((5 : Int) ≠ 7) := by
  refine ⟨by decide, by decide, by decide⟩

/-- C5 (amended): for n ≥ 0, `scrollUp(n)` sets the scroll offset to
`max 0 (scrollOffset - n)` and `scrollDown(n)` sets it to
`min rows.length (scrollOffset + n)` — clamped below by 0 AND above by
`rows.length` — and each call moves the cursor by the same signed amount,
the cursor being clamped into `[0, max 0 (rows.length - 1)]`. -/
theorem scroll_coupling_equations (v : InlineDiffView) (n : Int) (_hn : 0 ≤ n) :
    (v.scrollUp n).scrollOffset = max 0 (v.scrollOffset - n) ∧
    (v.scrollUp n).cursorLine =
      max 0 (min (v.cursorLine - n) (max 0 ((v.renderedLines.length : Int) - 1))) ∧
    (v.scrollDown n).scrollOffset =
      min (v.renderedLines.length : Int) (v.scrollOffset + n) ∧
    (v.scrollDown n).cursorLine =
      max 0 (min (v.cursorLine + n) (max 0 ((v.renderedLines.length : Int) - 1))) ∧
    0 ≤ (v.scrollUp n).scrollOffset ∧
    (v.scrollDown n).scrollOffset ≤ (v.renderedLines.length : Int) := by
  simp only [InlineDiffView.scrollUp, InlineDiffView.scrollDown,
    InlineDiffView.moveCursor, InlineDiffView.setCursor]
  refine ⟨trivial, by omega, by omega, trivial, by omega, by omega⟩

/-- Witness for C5 at a concrete state: scrolling the example view down by
2 moves the offset and the cursor to 2. -/
theorem scroll_coupling_equations_witness :
    (exampleView.scrollDown 2).scrollOffset =
      min ((exampleView.renderedLines.length : Int)) (exampleView.scrollOffset + 2) ∧
    (exampleView.scrollDown 2).cursorLine =
      max 0 (min (exampleView.cursorLine + 2)
        (max 0 ((exampleView.renderedLines.length : Int) - 1))) := by
  have hres := scroll_coupling_equations exampleView 2 (by decide)
  exact ⟨hres.2.2.1, hres.2.2.2.1⟩

/-! ## Claim C6 -/

/-- C6: whenever visual mode is on, `getVisualRange` returns exactly the
inclusive pair `[min(anchor, cursor), max(anchor, cursor)]`, and it is
symmetric in the anchor and the cursor (whichever is smaller). -/
theorem getVisualRange_minMax (v : InlineDiffView) (_h : v.visualMode = true) :
    v.getVisualRange =
      (min v.visualAnchor v.cursorLine, max v.visualAnchor v.cursorLine) ∧
    ({ v with visualAnchor := v.cursorLine, cursorLine := v.visualAnchor } :
        InlineDiffView).getVisualRange = v.getVisualRange := by
  refine ⟨rfl, ?_⟩
  simp only [InlineDiffView.getVisualRange]
  rw [min_comm, max_comm]

/-- Witness for C6: entering visual mode at row 3 and moving the cursor up
to row 1 yields the range (1, 3). -/
theorem getVisualRange_minMax_witness :
    (((exampleView.moveCursor 3).enterVisualMode.moveCursor (-2))).getVisualRange
      = (1, 3) := by
  rw [(getVisualRange_minMax _ (by decide)).1]
  decide

/-! ## Claim C8 -/

theorem selClause_dismiss (sp : StructuredPatchFn) (m : DiffReviewModal)
    (h : SelClause m) : SelClause (m.dismissSelected sp).2 := by
  simp only [DiffReviewModal.dismissSelected]
  cases hsel : m.selectedFile with
  | none => exact h
  | some p =>
    simp only []
    have hge : 0 ≤ ({ m with diffState := m.diffState.dismissFile p } :
        DiffReviewModal).selectedIndex := selectedIndex_nonneg_of_selClause h
    have hsc := selClause_refresh sp
      { m with diffState := m.diffState.dismissFile p } hge
    split_ifs with hclamp
    · obtain ⟨hs1, hs2⟩ := hsc
      refine ⟨?_, ?_⟩
      · intro hc; simp only [] at hc ⊢; omega
      · intro hpos; simp only [] at hpos ⊢; constructor <;> omega
    · exact hsc

theorem sessionInvariant_make (sp : StructuredPatchFn) (ds : DiffState) :
    SessionInvariant (DiffReviewModal.make sp ds) := by
  refine ⟨selClause_refresh sp _ (le_refl 0), ?_⟩
  intro hopen
  simp only [DiffReviewModal.make] at hopen
  rw [(pickerOpen_refresh sp _).1] at hopen
  exact Bool.noConfusion hopen

/-- C8 counterexample: starting from a modal over two changed files, the
operation sequence openFilePicker, filePickerNext (picker index 1),
dismissSelected (list shrinks to one file) is reachable through the public
operations, satisfies the SessionState invariant before the dismissal, and
violates it afterwards: the picker is open and `filePickerIndex = 1` is out
of range for the 1-element list — neither `refresh` nor `dismissSelected`
re-clamps the picker index. -/
theorem modal_invariant_claim_counterexample :
    SessionInvariant
      ((DiffReviewModal.make spEmpty exampleLedger).openFilePicker.filePickerNext) ∧
    ¬ SessionInvariant
      (((DiffReviewModal.make spEmpty exampleLedger).openFilePicker.filePickerNext.dismissSelected
        spEmpty).2) := by
  unfold SessionInvariant SelClause PickerClause
  decide

/-- C8 (amended): the constructor establishes the SessionState invariant;
selectNext, selectPrevious, selectIndex, openFilePicker, closeFilePicker,
filePickerNext and filePickerPrevious preserve it; confirmFilePickerSelection
preserves it when called with the picker open (with the picker closed the
unchecked stale picker index is adopted as the selection);
refresh and dismissSelected always re-establish the selectedIndex bound, and
preserve the full invariant when the picker is closed — when the picker is
open they may leave `filePickerIndex` out of range, as the counterexample
shows. -/
theorem modal_invariant_preservation :
    (∀ (sp : StructuredPatchFn) (ds : DiffState),
      SessionInvariant (DiffReviewModal.make sp ds)) ∧
    (∀ m : DiffReviewModal, SessionInvariant m →
      SessionInvariant m.selectNext ∧
      SessionInvariant m.selectPrevious ∧
      (∀ i, SessionInvariant (m.selectIndex i)) ∧
      SessionInvariant m.openFilePicker ∧
      SessionInvariant m.closeFilePicker ∧
      SessionInvariant m.filePickerNext ∧
      SessionInvariant m.filePickerPrevious ∧
      (m.filePickerOpen = true →
        SessionInvariant m.confirmFilePickerSelection) ∧
      (∀ sp, SelClause (m.refresh sp) ∧ SelClause (m.dismissSelected sp).2) ∧
      (∀ sp, m.filePickerOpen = false →
        SessionInvariant (m.refresh sp) ∧
        SessionInvariant (m.dismissSelected sp).2)) := by
  refine ⟨sessionInvariant_make,
    fun m hm => ⟨sessionInvariant_selectNext m hm,
      sessionInvariant_selectPrevious m hm,
      fun i => sessionInvariant_selectIndex m i hm,
      sessionInvariant_openFilePicker m hm,
      sessionInvariant_closeFilePicker m hm,
      sessionInvariant_filePickerNext m hm,
      sessionInvariant_filePickerPrevious m hm,
      fun hopen => sessionInvariant_confirmFilePicker m hopen hm,
      fun sp => ⟨selClause_refresh sp m (selectedIndex_nonneg_of_selClause hm.1),
        selClause_dismiss sp m hm.1⟩,
      fun sp hclosed => ⟨sessionInvariant_refresh_closed sp m hclosed hm,
        sessionInvariant_dismiss_closed sp m hclosed hm⟩⟩⟩

/-- Witness for C8 at a concrete session: selectNext on the two-file modal
keeps the invariant. -/
theorem modal_invariant_preservation_witness :
    SessionInvariant ((DiffReviewModal.make spEmpty exampleLedger).selectNext) :=
  (modal_invariant_preservation.2 (DiffReviewModal.make spEmpty exampleLedger)
    (by unfold SessionInvariant SelClause PickerClause; decide)).1

/-! ## Claim C9 -/

/-- A host environment whose theme and truncation utilities are identities
and that reports no terminal height (the default 40 applies). -/
def envPlain : OverlayEnv :=
  { tuiHeight := none, fg := fun _ t => t, bold := fun t => t,
    truncUtil := fun t _ => t, title := "Diff Review".data }

/-- A ledger with 27 changed files, built through `trackFile`. -/
def ledger27 : DiffState :=
  (List.range 27).foldl
    (fun s i => s.trackFile (Nat.repr i).data ['x'] ['y']) DiffState.empty

/-- Overlay state showing the file picker over the 27-file modal. -/
def statePicker27 : OverlayState :=
  { modal := (DiffReviewModal.make spEmpty ledger27).openFilePicker,
    viewController := none }

/-- Overlay state with no files at all. -/
def stateNoFiles : OverlayState :=
  { modal := DiffReviewModal.make spEmpty DiffState.empty,
    viewController := none }

/-- C9 counterexample: with the default terminal height the derived block
height is 30, but with the file picker open over 27 files the overlay
render succeeds and returns 33 rows (2 header + 27 entries + 2 footer
lines, plus the two borders, exceed the target and nothing truncates the
block), so the "always exactly max(20, floor(terminalHeight*0.75)) rows"
claim fails. -/
theorem overlay_rowCount_claim_counterexample :
    (overlayRender envPlain statePicker27 10).map (fun r => r.1.length) =
      some 33 ∧
    overlayTargetHeight envPlain = 30 ∧ ((33 : Nat) ≠ 30) := by
  refine ⟨?_, by decide, by decide⟩
  decide

/-- C9 (amended): whenever the overlay `render(width)` returns at all, it
returns exactly `max(contentLines + 2, targetHeight)` rows, where
`targetHeight` is `max(20, floor(terminalHeight * 0.75))` with the terminal
height defaulting to 40; so the block has exactly `targetHeight` rows
whenever the content fits (in particular in the no-files mode, whose
content is 3 lines), padded with empty bordered lines, with the top border
first and the bottom border last.  Render does return whenever the
SessionState selection bound holds; but in the diff-view mode (non-empty
list, picker closed) an out-of-range or negative `selectedIndex` makes the
source throw reading `fileList[selectedIndex].path` — modelled as the
`none` outcome. -/
theorem overlayRender_rowCount (env : OverlayEnv) (st : OverlayState)
    (width : Int) (_hw : 4 ≤ width) :
    (∀ content vc, overlayContent env st width = some (content, vc) →
      overlayRender env st width =
        some (overlayAssemble env width content
            (decide (0 < st.modal.fileList.length) && !st.modal.filePickerOpen),
          { st with viewController := vc }) ∧
      (overlayRender env st width).map (fun r => r.1.length) =
        some (max (content.length + 2) (overlayTargetHeight env).toNat) ∧
      (content.length + 2 ≤ (overlayTargetHeight env).toNat →
        (overlayRender env st width).map (fun r => r.1.length) =
          some (overlayTargetHeight env).toNat) ∧
      (∃ mid, (overlayRender env st width).map (fun r => r.1) =
        some (overlayTopBorder env width ::
          (mid ++ [overlayBottomBorder env width])))) ∧
    (SelClause st.modal → ∃ built, overlayContent env st width = some built) ∧
    (st.modal.fileList = [] →
      (overlayRender env st width).map (fun r => r.1.length) =
        some (overlayTargetHeight env).toNat) ∧
    (st.modal.filePickerOpen = false → 0 < st.modal.fileList.length →
      (st.modal.selectedIndex < 0 ∨
        (st.modal.fileList.length : Int) ≤ st.modal.selectedIndex) →
      overlayRender env st width = none) ∧
    (env.tuiHeight = none → overlayTargetHeight env = 30) := by
  have ht := overlayTargetHeight_ge env
  have hmain : ∀ content vc, overlayContent env st width = some (content, vc) →
      overlayRender env st width =
        some (overlayAssemble env width content
            (decide (0 < st.modal.fileList.length) && !st.modal.filePickerOpen),
          { st with viewController := vc }) ∧
      (overlayRender env st width).map (fun r => r.1.length) =
        some (max (content.length + 2) (overlayTargetHeight env).toNat) ∧
      (content.length + 2 ≤ (overlayTargetHeight env).toNat →
        (overlayRender env st width).map (fun r => r.1.length) =
          some (overlayTargetHeight env).toNat) ∧
      (∃ mid, (overlayRender env st width).map (fun r => r.1) =
        some (overlayTopBorder env width ::
          (mid ++ [overlayBottomBorder env width]))) := by
    intro content vc hco
    have hrw : overlayRender env st width =
        some (overlayAssemble env width content
            (decide (0 < st.modal.fileList.length) && !st.modal.filePickerOpen),
          { st with viewController := vc }) := by
      simp only [overlayRender, hco]
    refine ⟨hrw, ?_, ?_, ?_⟩
    · rw [hrw]
      simp only [Option.map_some', overlayAssemble_length]
    · intro hfits
      rw [hrw]
      simp only [Option.map_some', overlayAssemble_length, Option.some.injEq]
      omega
    · obtain ⟨mid, hm⟩ := overlayAssemble_shape env width content
        (decide (0 < st.modal.fileList.length) && !st.modal.filePickerOpen)
      refine ⟨mid, ?_⟩
      rw [hrw]
      simp only [Option.map_some', hm]
  refine ⟨hmain, overlayContent_isSome env st width, ?_, ?_, ?_⟩
  · intro hempty
    refine (hmain _ _ (overlayContent_noFiles env st width hempty)).2.2.1 ?_
    simp only [List.length_cons, List.length_nil]
    omega
  · intro hclosed hpos hout
    simp only [overlayRender, overlayContent_throw env st width hclosed hpos hout]
  · intro hnone
    simp only [overlayTargetHeight, hnone]
    decide

/-- Witness for C9: with identity theming, no files and width 10, the
overlay render succeeds with exactly 30 rows (the default-height target). -/
theorem overlayRender_rowCount_witness :
    (overlayRender envPlain stateNoFiles 10).map (fun r => r.1.length) =
      some (overlayTargetHeight envPlain).toNat :=
  (overlayRender_rowCount envPlain stateNoFiles 10 (by decide)).2.2.1 (by decide)

/-! ## Claim C10 -/

/-- C10: every row content the inline view builds starts with a complete
color escape sequence, and consequently every row returned by `render` ends
with the reset sequence `\x1b[0m` (in particular any row containing an
escape sequence ends with the reset, so styling cannot leak into following
rows) and its scan never ends inside an escape sequence (a trailing partial
escape is dropped, never emitted). -/
theorem render_rows_reset_terminated :
    (∀ (hl : Option HighlightFn) (d : FileDiff),
      ∀ l ∈ (buildRenderedLines hl d).1, GoodStart l.content) ∧
    (∀ (v : InlineDiffView) (width h : Int),
      (∀ l ∈ v.renderedLines, GoodStart l.content) →
      ∀ r ∈ (v.render width h).2,
        resetSeq <:+ r ∧ scanState r false = false) := by
  refine ⟨buildRenderedLines_goodStart, ?_⟩
  intro v width h hgl r hr
  obtain ⟨content, line, hline, rfl, hcases⟩ := render_rows_shape v width h r hr
  have hgood : GoodStart content := by
    rcases hcases with rfl | ⟨tail, rfl⟩
    · exact hgl line hline
    · exact bgOn_goodStart tail
  exact truncateToWidth_goodStart content width hgood

/-- Witness for C10: the first row of the rendered example view ends with
the reset sequence and does not end inside an escape sequence. -/
theorem render_rows_reset_terminated_witness :
    resetSeq <:+ ((exampleView.render 5 3).2.headI) ∧
      scanState ((exampleView.render 5 3).2.headI) false = false :=
  render_rows_reset_terminated.2 exampleView 5 3
    (fun l hl => render_rows_reset_terminated.1 none exampleContextDiff l hl)
    _ (by decide)

end PiDiffUi
